import Mathlib

/-!
Verification development for the lmt-lv/iot-shortcut-sdk uplink core.

The repository ships the public headers (src/inc) and sample applications;
the core translation units behind those headers are not part of the tree.
The definitions below therefore embed the data model and operations from
the public header contracts and the specification, faithfully to their
words, and the theorems settle the specification's claims against them.
-/

/-! ## Build-time constants (src/inc/lmt_proto_handler.h) -/

def MAX_TRACKS_COUNT : Nat := 12
def MAX_PERIODS_COUNT : Nat := 3
def MAX_COLUMNS_COUNT : Nat := 50
def MAX_TAPE_COUNT : Nat := 1
def MAX_ACTION_PARAMETERS_SIZE : Nat := 256
def APP_COAP_MAX_MSG_LEN : Nat := 1280

/-- errno value used by the headers for validation failures (-EINVAL). -/
def EINVAL : Int := 22

/-! ## Events (src/inc/lmt_som_event_emitter.h) -/

/-- Events emitted by the IoT Shortcut SDK library, mirroring the `SomEvent`
enumeration of src/inc/lmt_som_event_emitter.h. -/
inductive SomEvent where
  | EVENT_DEVICE_INIT_OK
  | EVENT_LOGGER_INIT_OK
  | EVENT_PACKER_INIT_OK
  | EVENT_MAILER_INIT_OK
  | EVENT_DROPPING_OLDEST
  | EVENT_PACKER_STARTED
  | EVENT_PACKING_FAILED
  | EVENT_ENQUEUE_FAILED
  | EVENT_PACKER_DONE_OK
  | EVENT_UL_START
  | EVENT_UL_MAX_RETRY
  | EVENT_UL_RETRY
  | EVENT_UL_DONE
  | EVENT_RRC_IDLE
  | EVENT_RRC_CONNECTED
  | EVENT_MODEM_ON
  | EVENT_MODEM_OFF
  | EVENT_COAP_START
  | EVENT_COAP_FAIL
  | EVENT_COAP_NOACK
  | EVENT_COAP_OK
  | EVENT_LOG_ERROR
  | EVENT_LOG_WARNING
  | EVENT_LOG_INFO
  | EVENT_TERMINAL_CMD
deriving DecidableEq, Repr

/-! ## Tape Store data model

Modelled from the spec: the tape/period/column tree of §3 ("Tape": ordered
sequence of Periods, capacity `MAX_PERIODS_COUNT`; "Period": a sampling
interval value plus its ordered sequence of Columns, capacity
`MAX_COLUMNS_COUNT`; "Column": a fixed-size array of `MAX_TRACKS_COUNT`
measurement slots, owned by its Period, data copied in).  Lists are kept
oldest first, matching the append-at-end array discipline of the headers. -/

/-- Modelled from the spec: one column of per-track measurement values
(spec §3 "Column"), as copied in by `addColumnToTape`. -/
structure Column where
  tracks : List Int
deriving DecidableEq, Repr

/-- Modelled from the spec: one period entry of a tape — a sampling-interval
value plus the columns appended under it (spec §3 "Period"). -/
structure Period where
  value : Nat
  columns : List Column
deriving DecidableEq, Repr

/-- Modelled from the spec: one aggregation channel (spec §3 "Tape"), the
ordered sequence of its period entries, oldest first. -/
structure Tape where
  periods : List Period
deriving DecidableEq, Repr

/-- Modelled from the spec: the fixed set of tapes (`MAX_TAPE_COUNT = 1`),
so the store carries the single tape of index 0. -/
structure TapeStore where
  tape : Tape
deriving DecidableEq, Repr

/-- Value of the last period entry of a period list; 0 when there is none
(contract of `getLastPeriod` in src/inc/lmt_proto_handler.h). -/
def periodsLastValue : List Period → Nat
  | [] => 0
  | [p] => p.value
  | _ :: q :: ps => periodsLastValue (q :: ps)

/-- Whether the last period entry of a period list has no columns yet
(`true` also for the empty list). -/
def periodsLastColsEmpty : List Period → Bool
  | [] => true
  | [p] => p.columns.isEmpty
  | _ :: q :: ps => periodsLastColsEmpty (q :: ps)

/-- Overwrite in place the value of the last period entry. -/
def setLastValue (v : Nat) : List Period → List Period
  | [] => []
  | [p] => [⟨v, p.columns⟩]
  | p :: q :: ps => p :: setLastValue v (q :: ps)

/-- Append one column to the columns of the last period entry. -/
def appendColsLast (c : Column) : List Period → List Period
  | [] => []
  | [p] => [⟨p.value, p.columns ++ [c]⟩]
  | p :: q :: ps => p :: appendColsLast c (q :: ps)

/-- Truncate the columns across a period list to a total budget, keeping the
oldest data and every period entry. -/
def capColumnsGo : Nat → List Period → List Period
  | _, [] => []
  | budget, p :: ps => ⟨p.value, p.columns.take budget⟩ :: capColumnsGo (budget - p.columns.length) ps

/-- Total number of columns recorded in a tape (summed over its periods). -/
def tapeRecords (t : Tape) : Nat :=
  (t.periods.map (fun p => p.columns.length)).sum

/-- Modelled from the spec: `rewindTape` body — "Resets the Tape keeping the
last period entry" (src/inc/lmt_proto_handler.h), i.e. clears all columns and
keeps only the most recent period value. -/
def tapeRewind (t : Tape) : Tape :=
  if t.periods.isEmpty then ⟨[]⟩ else ⟨[⟨periodsLastValue t.periods, []⟩]⟩

/-- Modelled from the spec: `updatePeriod` body, per its header contract
(src/inc/lmt_proto_handler.h lines 51-62): corrects the column count if it
is at or above `MAX_COLUMNS_COUNT`; duplicate value entries are not added;
entries without measurements are overwritten; on overflow of the Periods
array it resets the array and stores the new value.  `mergePeriod` is the
merge step on the (possibly corrected) period list. -/
def mergePeriod (v : Nat) (ps : List Period) : List Period :=
  if ps.isEmpty then [⟨v, []⟩]
  else if periodsLastValue ps = v then ps
  else if periodsLastColsEmpty ps then setLastValue v ps
  else if MAX_PERIODS_COUNT ≤ ps.length then [⟨v, []⟩]
  else ps ++ [⟨v, []⟩]

/-- Modelled from the spec: `updatePeriod` on one tape — first the column
count correction, then the period merge step. -/
def tapeUpdatePeriod (v : Nat) (t : Tape) : Tape :=
  ⟨mergePeriod v
    (if MAX_COLUMNS_COUNT ≤ tapeRecords t then capColumnsGo MAX_COLUMNS_COUNT t.periods
     else t.periods)⟩

/-- Modelled from the spec: `addColumnToTape` body on one tape — on column
overflow it performs the implicit wrap (oldest data dropped, last period
preserved, spec §4.1) before inserting, then merges the period and appends
one column of `MAX_TRACKS_COUNT` copied values, returning the number of
remaining empty column slots (src/inc/lmt_proto_handler.h lines 72-80). -/
def tapeAddColumn (period : Nat) (meas : List Int) (t : Tape) : Int × Tape :=
  let t1 := if MAX_COLUMNS_COUNT ≤ tapeRecords t then tapeRewind t else t
  let t2 := tapeUpdatePeriod period t1
  let t3 : Tape := ⟨appendColsLast ⟨meas.take MAX_TRACKS_COUNT⟩ t2.periods⟩
  ((MAX_COLUMNS_COUNT : Int) - (tapeRecords t3 : Int), t3)

/-! ## Tape Store API (src/inc/lmt_proto_handler.h), with the tape-index
bound check of the headers (`-EINVAL` for an out-of-range index). -/

/-- Modelled from the spec: `addColumnToTape(i_tape, period, p_measurements)`
— adds a measurements column and its period to the given tape; returns the
number of remaining empty columns, `-EINVAL` if `i_tape` is out of range. -/
def addColumnToTape (i_tape : Nat) (period : Nat) (meas : List Int) (s : TapeStore) : Int × TapeStore :=
  if i_tape < MAX_TAPE_COUNT then
    let r := tapeAddColumn period meas s.tape
    (r.1, ⟨r.2⟩)
  else (-EINVAL, s)

/-- Modelled from the spec: `updatePeriod(i_tape, value)` (void in C;
out-of-range indices leave the store untouched). -/
def updatePeriod (i_tape : Nat) (v : Nat) (s : TapeStore) : TapeStore :=
  if i_tape < MAX_TAPE_COUNT then ⟨tapeUpdatePeriod v s.tape⟩ else s

/-- Modelled from the spec: `getLastPeriod(i_tape)` — the last defined period
or 0 if the period is not set. -/
def getLastPeriod (i_tape : Nat) (s : TapeStore) : Nat :=
  if i_tape < MAX_TAPE_COUNT then periodsLastValue s.tape.periods else 0

/-- Modelled from the spec: `getTapeRecordsCount(i_tape)` — actual column
count in the tape. -/
def getTapeRecordsCount (i_tape : Nat) (s : TapeStore) : Nat :=
  if i_tape < MAX_TAPE_COUNT then tapeRecords s.tape else 0

/-- Modelled from the spec: `rewindTape(i_tape)` — resets the tape keeping
the last period entry. -/
def rewindTape (i_tape : Nat) (s : TapeStore) : TapeStore :=
  if i_tape < MAX_TAPE_COUNT then ⟨tapeRewind s.tape⟩ else s

/-- Modelled from the spec: `restartMeasurements()` — clears sensor
measurements keeping the last measurement periods, on every tape. -/
def restartMeasurements (s : TapeStore) : TapeStore :=
  ⟨tapeRewind s.tape⟩

/-! ## Settings (src/inc/lmt_settings.h)

Modelled from the spec: the numeric settings with documented bounds; an
out-of-range setter returns `-EINVAL` and leaves the stored value intact,
an in-range setter returns 0 and stores the argument (spec §6). -/

/-- Modelled from the spec: the stored numeric settings with documented
bounds, in the declaration order of src/inc/lmt_settings.h
(`LogFileMaxSize` is an `int32_t` in the header, the rest are unsigned). -/
structure Settings where
  log_file_max_size : Int
  lte_connection_timeout : Nat
  uplink_timeout : Nat
  no_psm_uplink_timeout : Nat
  resend_packet_initial_timeout : Nat
  max_resend_timeout : Nat
  max_resend_attempts : Nat
  log_rotation_frequency : Nat
  response_wait_timeout : Nat
  file_ul_retries : Nat
  num_of_log_files : Nat
deriving DecidableEq, Repr

/-- Modelled from the spec: `setLogFileMaxSize` — maximum log file size in
bytes, 1024 ≤ size ≤ 1048576; 0 on success, `-EINVAL` otherwise. -/
def setLogFileMaxSize (size : Int) (s : Settings) : Int × Settings :=
  if 1024 ≤ size ∧ size ≤ 1048576 then
    (0, { s with log_file_max_size := size })
  else (-EINVAL, s)

/-- Modelled from the spec: `setLTEConnectionTimeout` — network connection
timeout in seconds, 1 ≤ timeout ≤ 1800; 0 on success, `-EINVAL` otherwise. -/
def setLTEConnectionTimeout (timeout : Nat) (s : Settings) : Int × Settings :=
  if 1 ≤ timeout ∧ timeout ≤ 1800 then
    (0, { s with lte_connection_timeout := timeout })
  else (-EINVAL, s)

/-- Modelled from the spec: `setUplinkTimeout` — device uplink timeout in
minutes, 5 ≤ timeout ≤ 1440; 0 on success, `-EINVAL` otherwise. -/
def setUplinkTimeout (timeout : Nat) (s : Settings) : Int × Settings :=
  if 5 ≤ timeout ∧ timeout ≤ 1440 then
    (0, { s with uplink_timeout := timeout })
  else (-EINVAL, s)

/-- Modelled from the spec: `setNoPsmUplinkTimeout` — uplink timeout without
PSM in hours, 1 ≤ timeout ≤ 24; 0 on success, `-EINVAL` otherwise. -/
def setNoPsmUplinkTimeout (timeout : Nat) (s : Settings) : Int × Settings :=
  if 1 ≤ timeout ∧ timeout ≤ 24 then
    (0, { s with no_psm_uplink_timeout := timeout })
  else (-EINVAL, s)

/-- Modelled from the spec: `setResendPacketInitialTimeout` — initial resend
timeout in minutes, 1 ≤ timeout ≤ 60; 0 on success, `-EINVAL` otherwise. -/
def setResendPacketInitialTimeout (timeout : Nat) (s : Settings) : Int × Settings :=
  if 1 ≤ timeout ∧ timeout ≤ 60 then
    (0, { s with resend_packet_initial_timeout := timeout })
  else (-EINVAL, s)

/-- Modelled from the spec: `setMaxResendTimeout` — maximum resend timeout in
hours, 1 ≤ timeout ≤ 24; 0 on success, `-EINVAL` otherwise. -/
def setMaxResendTimeout (timeout : Nat) (s : Settings) : Int × Settings :=
  if 1 ≤ timeout ∧ timeout ≤ 24 then
    (0, { s with max_resend_timeout := timeout })
  else (-EINVAL, s)

/-- Modelled from the spec: `setMaxResendAttempts` — maximum number of resend
attempts, 1 ≤ attempts ≤ 10; 0 on success, `-EINVAL` otherwise. -/
def setMaxResendAttempts (attempts : Nat) (s : Settings) : Int × Settings :=
  if 1 ≤ attempts ∧ attempts ≤ 10 then
    (0, { s with max_resend_attempts := attempts })
  else (-EINVAL, s)

/-- Modelled from the spec: `setLogRotationFrequency` — log rotation check
frequency in wakeup cycles, 1 ≤ frequency ≤ 50; 0 on success, `-EINVAL`
otherwise. -/
def setLogRotationFrequency (frequency : Nat) (s : Settings) : Int × Settings :=
  if 1 ≤ frequency ∧ frequency ≤ 50 then
    (0, { s with log_rotation_frequency := frequency })
  else (-EINVAL, s)

/-- Modelled from the spec: `setResponseWaitTimeout` — CoAP response wait
timeout in seconds, 1 ≤ timeout ≤ 60; 0 on success, `-EINVAL` otherwise. -/
def setResponseWaitTimeout (timeout : Nat) (s : Settings) : Int × Settings :=
  if 1 ≤ timeout ∧ timeout ≤ 60 then
    (0, { s with response_wait_timeout := timeout })
  else (-EINVAL, s)

/-- Modelled from the spec: `setFileUlRetries` — number of retries for file
uploads, 1 ≤ retries ≤ 10; 0 on success, `-EINVAL` otherwise. -/
def setFileUlRetries (retries : Nat) (s : Settings) : Int × Settings :=
  if 1 ≤ retries ∧ retries ≤ 10 then
    (0, { s with file_ul_retries := retries })
  else (-EINVAL, s)

/-- Modelled from the spec: `setNumOfLogFiles` — maximum number of log files
on flash, 1 ≤ file count ≤ 20; 0 on success, `-EINVAL` otherwise. -/
def setNumOfLogFiles (file_count : Nat) (s : Settings) : Int × Settings :=
  if 1 ≤ file_count ∧ file_count ≤ 20 then
    (0, { s with num_of_log_files := file_count })
  else (-EINVAL, s)

/-- Getter for the maximum log file size (src/inc/lmt_settings.h). -/
def getLogFileMaxSize (s : Settings) : Int :=
  s.log_file_max_size

/-- Getter for the network connection timeout (src/inc/lmt_settings.h). -/
def getLTEConnectionTimeout (s : Settings) : Nat :=
  s.lte_connection_timeout

/-- Getter for the device uplink timeout (src/inc/lmt_settings.h). -/
def getUplinkTimeout (s : Settings) : Nat :=
  s.uplink_timeout

/-- Getter for the uplink timeout without PSM (src/inc/lmt_settings.h). -/
def getNoPsmUplinkTimeout (s : Settings) : Nat :=
  s.no_psm_uplink_timeout

/-- Getter for the log rotation check frequency (src/inc/lmt_settings.h). -/
def getLogRotationFrequency (s : Settings) : Nat :=
  s.log_rotation_frequency

/-- Getter for the file upload retry count (src/inc/lmt_settings.h). -/
def getFileUlRetries (s : Settings) : Nat :=
  s.file_ul_retries

/-- Getter for the maximum number of log files (src/inc/lmt_settings.h). -/
def getNumOfLogFiles (s : Settings) : Nat :=
  s.num_of_log_files

/-- Getter for the initial resend timeout (src/inc/lmt_settings.h). -/
def getResendPacketInitialTimeout (s : Settings) : Nat :=
  s.resend_packet_initial_timeout

/-- Getter for the maximum resend timeout (src/inc/lmt_settings.h). -/
def getMaxResendTimeout (s : Settings) : Nat :=
  s.max_resend_timeout

/-- Getter for the maximum resend attempts (src/inc/lmt_settings.h). -/
def getMaxResendAttempts (s : Settings) : Nat :=
  s.max_resend_attempts

/-- Getter for the CoAP response wait timeout (src/inc/lmt_settings.h). -/
def getResponseWaitTimeout (s : Settings) : Nat :=
  s.response_wait_timeout

/-- A concrete settings record with every stored value inside its
documented bounds (in particular MaxResendAttempts 3, initial resend
timeout 10 minutes, resend cap 1 hour). -/
def settingsEx : Settings := ⟨4096, 60, 30, 12, 10, 1, 3, 5, 20, 2, 4⟩

/-! ## Pending Action Slot (src/inc/lmt_coap_manager.h, spec §4.5)

Modelled from the spec: a single-slot holder with three tagged variants;
a `postpone*` setter is a no-op if the slot is occupied by a different
request, while an empty slot (or a same-type overwrite) accepts it. -/

/-- Modelled from the spec: the tagged deferred action held by the Pending
Action Slot (spec §4.5): firmware-upgrade path, log-read request, or
terminal-command payload, payloads copied in as bounded byte lists. -/
inductive PendingAction where
  | upgradeFw (path : List Nat)
  | logRead
  | terminalCmd (cmd : List Nat)
deriving DecidableEq, Repr

/-- Non-zero numeric tag of a pending action, as reported by
`getRequestedAction` (0 is reserved for the empty slot). -/
def actionCode : PendingAction → Nat
  | .upgradeFw _ => 1
  | .logRead => 2
  | .terminalCmd _ => 3

/-- Modelled from the spec: the Pending Action Slot — at most one pending
action outstanding (spec §3 "Pending Action"). -/
structure ActionSlot where
  pending : Option PendingAction
deriving DecidableEq, Repr

/-- Modelled from the spec: the compare-and-set acceptance rule of the slot
(spec §5: accept only if empty or same-type overwrite; otherwise a no-op
that retains the previous value). -/
def postponeAction (a : PendingAction) (s : ActionSlot) : ActionSlot :=
  match s.pending with
  | none => ⟨some a⟩
  | some b => if actionCode b = actionCode a then ⟨some a⟩ else s

/-- Modelled from the spec: `postponeUpgradeFw(p_upgrade_fw_path, length)` —
postpones the firmware download and upgrade, copying `length` bytes of the
path (src/inc/lmt_coap_manager.h lines 141-147). -/
def postponeUpgradeFw (path : List Nat) (length : Nat) (s : ActionSlot) : ActionSlot :=
  postponeAction (.upgradeFw (path.take length)) s

/-- Modelled from the spec: `postponeLogRead()` — postpones the log read
request (src/inc/lmt_coap_manager.h). -/
def postponeLogRead (s : ActionSlot) : ActionSlot :=
  postponeAction .logRead s

/-- Modelled from the spec: `postponeTerminalCmd(p_cmd, size)` — postpones
terminal command execution, copying `size` bytes of the command. -/
def postponeTerminalCmd (cmd : List Nat) (size : Nat) (s : ActionSlot) : ActionSlot :=
  postponeAction (.terminalCmd (cmd.take size)) s

/-- Modelled from the spec: `getRequestedAction()` — 0 if no action is set,
the action value otherwise (src/inc/lmt_coap_manager.h lines 162-167). -/
def getRequestedAction (s : ActionSlot) : Nat :=
  match s.pending with
  | none => 0
  | some a => actionCode a

/-- Modelled from the spec: the Mailer consuming (clearing) the slot when it
dispatches the pending action (spec §4.5). -/
def consumeRequestedAction (s : ActionSlot) : Option PendingAction × ActionSlot :=
  (s.pending, ⟨none⟩)

/-! ## Chunked firmware download (src/inc/lmt_storage_manager.h, spec §4.4) -/

/-- Modelled from the spec: the state of one firmware download — the blocks
appended so far to the secondary image slot and whether the last block has
been saved (after which an upgrade has been requested and the transfer is
over until a new transfer start). -/
structure FwTransfer where
  finished : Bool
  blocks : List (List Nat)
deriving DecidableEq, Repr

/-- Modelled from the spec: `saveFwChunk(data, data_len, last_block)` —
appends one block of the incoming firmware image to the secondary slot;
returns 1 if the last block was saved and an upgrade requested, 0 on
success (continue), a negative value on failure; a call after the final
block, without a new transfer start, fails validation
(src/inc/lmt_storage_manager.h lines 104-113, spec §8 scenario D). -/
def saveFwChunk (data : List Nat) (data_len : Nat) (last_block : Bool) (s : FwTransfer) : Int × FwTransfer :=
  if s.finished then (-EINVAL, s)
  else (if last_block then 1 else 0, ⟨last_block, s.blocks ++ [data.take data_len]⟩)

/-! ## Outbound Queue (spec §3, §4.2)

Modelled from the spec: a bounded FIFO of encoded messages with a
build-time capacity; enqueuing into a full queue drops the oldest entry and
raises `EVENT_DROPPING_OLDEST`; dequeue takes the oldest entry. -/

/-- Modelled from the spec: the Outbound Queue — entries oldest first,
capacity fixed at build time. Messages are abstracted to their identity. -/
structure OutQueue where
  cap : Nat
  items : List Nat
deriving DecidableEq, Repr

/-- Modelled from the spec: enqueue with the drop-oldest overflow policy —
on overflow exactly the oldest entry is dropped and one
`EVENT_DROPPING_OLDEST` event is raised (spec §3 "Outbound Queue"). -/
def enqueueMsg (m : Nat) (q : OutQueue) : OutQueue × List SomEvent :=
  if q.cap ≤ q.items.length then
    (⟨q.cap, q.items.tail ++ [m]⟩, [.EVENT_DROPPING_OLDEST])
  else (⟨q.cap, q.items ++ [m]⟩, [])

/-- Modelled from the spec: dequeue of the oldest entry (FIFO), `none` when
the queue is empty. -/
def dequeueMsg (q : OutQueue) : Option Nat × OutQueue :=
  match q.items with
  | [] => (none, q)
  | m :: rest => (some m, ⟨q.cap, rest⟩)

/-- Enqueue a whole list of messages in order, collecting the raised events
in order. -/
def enqueueAll (ms : List Nat) (q : OutQueue) : OutQueue × List SomEvent :=
  match ms with
  | [] => (q, [])
  | m :: rest =>
    let r1 := enqueueMsg m q
    let r2 := enqueueAll rest r1.1
    (r2.1, r1.2 ++ r2.2)

/-- Dequeue all entries of the queue in order. -/
def dequeueAll (q : OutQueue) : List Nat :=
  q.items

/-! ## Mailer delivery of one dequeued message (spec §4.3)

Modelled from the spec: the retry state machine for one message.  Each
element of the `outcomes` list is the result of one delivery attempt
(`true` = acknowledged, `false` = failed to send / no ack).  The backoff
delay before the next attempt starts at `ResendPacketInitialTimeout`
(minutes) and grows monotonically toward `MaxResendTimeout` (hours),
doubling and clamped — the growth curve left open by the spec is fixed
here as doubling, clamped at the maximum.  Once attempts reach
`MaxResendAttempts` the Mailer emits `EVENT_UL_MAX_RETRY`, drops the
message and never requeues it. -/

/-- Modelled from the spec: the observable outcome of delivering one
dequeued message: the events emitted, the backoff delays (in minutes)
slept between consecutive attempts, the number of delivery attempts made,
whether the message was dropped after exhausting retries, and whether it
was ever requeued. -/
structure DeliverResult where
  events : List SomEvent
  delays : List Nat
  attemptsUsed : Nat
  dropped : Bool
  requeued : Bool
deriving DecidableEq, Repr

/-- Modelled from the spec: the Mailer retry loop for one message.
`maxA` is `MaxResendAttempts`, `maxT` the cap `MaxResendTimeout` in
minutes, `attempt` the attempts already made, `delay` the backoff that
would precede the next retry. -/
def mailerDeliverGo (maxA maxT : Nat) (attempt delay : Nat) : List Bool → DeliverResult
  | [] => ⟨[], [], attempt, false, false⟩
  | ok :: rest =>
    if ok then
      ⟨[.EVENT_COAP_OK, .EVENT_UL_DONE], [], attempt + 1, false, false⟩
    else if maxA ≤ attempt + 1 then
      ⟨[.EVENT_COAP_NOACK, .EVENT_UL_MAX_RETRY], [], attempt + 1, true, false⟩
    else
      let r := mailerDeliverGo maxA maxT (attempt + 1) (min (delay * 2) maxT) rest
      ⟨.EVENT_COAP_NOACK :: .EVENT_UL_RETRY :: r.events, delay :: r.delays,
       r.attemptsUsed, r.dropped, r.requeued⟩

/-- Modelled from the spec: delivery of one dequeued message under the given
settings (spec §4.3): attempts start at zero, the backoff starts at
`ResendPacketInitialTimeout` minutes, capped at `MaxResendTimeout` hours. -/
def mailerDeliver (st : Settings) (outcomes : List Bool) : DeliverResult :=
  mailerDeliverGo (getMaxResendAttempts st) (getMaxResendTimeout st * 60) 0
    (getResendPacketInitialTimeout st) outcomes

/-! ## Derived observers and instrumentation used by the theorems -/

/-- Total number of columns in a period list. -/
def colsSum (ps : List Period) : Nat :=
  (ps.map fun p => p.columns.length).sum

/-- Columns of the last period entry of a period list. -/
def periodsLastColumns : List Period → List Column
  | [] => []
  | [p] => p.columns
  | _ :: q :: ps => periodsLastColumns (q :: ps)

/-- The most recently appended column of a tape, if any. -/
def tapeLastColumn (t : Tape) : Option Column :=
  (periodsLastColumns t.periods).getLast?

/-- Whether one `addColumnToTape` call on this tape clears previously
recorded data before appending: either the implicit column-capacity wrap,
or the periods-array overflow reset inside the period merge. -/
def tapeAddColumnClears (p : Nat) (t : Tape) : Bool :=
  if MAX_COLUMNS_COUNT ≤ tapeRecords t then true
  else if t.periods.isEmpty then false
  else if periodsLastValue t.periods = p then false
  else if periodsLastColsEmpty t.periods then false
  else decide (MAX_PERIODS_COUNT ≤ t.periods.length)

/-- Run a sequence of `addColumnToTape` calls (tape index 0) in order. -/
def runAdds : List (Nat × List Int) → TapeStore → TapeStore
  | [], s => s
  | (p, m) :: rest, s => runAdds rest (addColumnToTape 0 p m s).2

/-- The calls-since-last-clear counter along a sequence of
`addColumnToTape` calls: it restarts at 1 on a clearing call (the call's
own column is appended after the clear) and increments otherwise. -/
def sinceClear : List (Nat × List Int) → TapeStore → Nat → Nat
  | [], _, k => k
  | (p, m) :: rest, s, k =>
      sinceClear rest (addColumnToTape 0 p m s).2
        (if tapeAddColumnClears p s.tape then 1 else k + 1)

/-! ## Tape Store lemmas -/

theorem colsSum_nil : colsSum [] = 0 := rfl

theorem colsSum_cons (p : Period) (ps : List Period) :
    colsSum (p :: ps) = p.columns.length + colsSum ps := by
  simp [colsSum]

theorem colsSum_append (ps qs : List Period) :
    colsSum (ps ++ qs) = colsSum ps + colsSum qs := by
  simp [colsSum]

theorem tapeRecords_def (t : Tape) : tapeRecords t = colsSum t.periods := rfl

theorem colsSum_eq_zero_iff (ps : List Period) :
    colsSum ps = 0 ↔ ∀ p ∈ ps, p.columns.length = 0 := by
  simp [colsSum, List.sum_eq_zero_iff]

theorem appendColsLast_colsSum (c : Column) :
    ∀ ps : List Period, ps ≠ [] → colsSum (appendColsLast c ps) = colsSum ps + 1
  | [], h => absurd rfl h
  | [p], _ => by simp [appendColsLast, colsSum]
  | p :: q :: ps, _ => by
    have ih := appendColsLast_colsSum c (q :: ps) (by simp)
    simp only [appendColsLast, colsSum_cons, ih]
    omega

theorem appendColsLast_ne_nil (c : Column) :
    ∀ ps : List Period, ps ≠ [] → appendColsLast c ps ≠ []
  | [], h => absurd rfl h
  | [p], _ => by simp [appendColsLast]
  | p :: q :: ps, _ => by simp [appendColsLast]

theorem periodsLastColumns_appendColsLast (c : Column) :
    ∀ ps : List Period, ps ≠ [] →
      periodsLastColumns (appendColsLast c ps) = periodsLastColumns ps ++ [c]
  | [], h => absurd rfl h
  | [p], _ => by simp [appendColsLast, periodsLastColumns]
  | p :: q :: ps, _ => by
    have ih := periodsLastColumns_appendColsLast c (q :: ps) (by simp)
    cases hqs : appendColsLast c (q :: ps) with
    | nil => exact absurd hqs (appendColsLast_ne_nil c (q :: ps) (by simp))
    | cons r rs =>
      simp only [appendColsLast, hqs, periodsLastColumns]
      rw [← hqs, ih]

theorem setLastValue_colsSum (v : Nat) :
    ∀ ps : List Period, colsSum (setLastValue v ps) = colsSum ps
  | [] => rfl
  | [p] => by simp [setLastValue, colsSum]
  | p :: q :: ps => by
    have ih := setLastValue_colsSum v (q :: ps)
    simp only [setLastValue, colsSum_cons, ih]

theorem setLastValue_length (v : Nat) :
    ∀ ps : List Period, (setLastValue v ps).length = ps.length
  | [] => rfl
  | [p] => rfl
  | p :: q :: ps => by
    have ih := setLastValue_length v (q :: ps)
    simp only [setLastValue, List.length_cons, ih]

theorem setLastValue_ne_nil (v : Nat) :
    ∀ ps : List Period, ps ≠ [] → setLastValue v ps ≠ []
  | [], h => absurd rfl h
  | [p], _ => by simp [setLastValue]
  | p :: q :: ps, _ => by simp [setLastValue]

theorem periodsLastValue_setLastValue (v : Nat) :
    ∀ ps : List Period, ps ≠ [] → periodsLastValue (setLastValue v ps) = v
  | [], h => absurd rfl h
  | [p], _ => by simp [setLastValue, periodsLastValue]
  | p :: q :: ps, _ => by
    have ih := periodsLastValue_setLastValue v (q :: ps) (by simp)
    cases hqs : setLastValue v (q :: ps) with
    | nil => exact absurd hqs (setLastValue_ne_nil v (q :: ps) (by simp))
    | cons r rs =>
      simp only [setLastValue, hqs, periodsLastValue]
      rw [← hqs, ih]

theorem periodsLastValue_append_single (ps : List Period) (p : Period) :
    periodsLastValue (ps ++ [p]) = p.value := by
  induction ps with
  | nil => rfl
  | cons q qs ih =>
    cases qs with
    | nil => rfl
    | cons r rs => simpa [periodsLastValue] using ih

theorem periodsLastValue_mem :
    ∀ ps : List Period, ps ≠ [] → periodsLastValue ps ∈ ps.map Period.value
  | [], h => absurd rfl h
  | [p], _ => by simp [periodsLastValue]
  | p :: q :: ps, _ => by
    have ih := periodsLastValue_mem (q :: ps) (by simp)
    simp only [periodsLastValue, List.map_cons, List.mem_cons]
    right
    simpa using ih

theorem capColumnsGo_colsSum :
    ∀ (b : Nat) (ps : List Period), colsSum (capColumnsGo b ps) = min b (colsSum ps)
  | b, [] => by simp [capColumnsGo, colsSum]
  | b, p :: ps => by
    have ih := capColumnsGo_colsSum (b - p.columns.length) ps
    simp only [capColumnsGo, colsSum_cons, ih, List.length_take]
    omega

theorem capColumnsGo_of_le :
    ∀ (b : Nat) (ps : List Period), colsSum ps ≤ b → capColumnsGo b ps = ps
  | b, [], _ => rfl
  | b, p :: ps, h => by
    rw [colsSum_cons] at h
    have h1 : p.columns.length ≤ b := by omega
    have ih := capColumnsGo_of_le (b - p.columns.length) ps (by omega)
    simp only [capColumnsGo, ih, List.take_of_length_le h1]

theorem isEmpty_false_ne_nil {ps : List Period} (h : ps.isEmpty = false) : ps ≠ [] := by
  intro hnil
  simp [hnil] at h

theorem mergePeriod_ne_nil (v : Nat) (ps : List Period) : mergePeriod v ps ≠ [] := by
  unfold mergePeriod
  split_ifs with h1 h2 h3 h4
  · simp
  · exact isEmpty_false_ne_nil (Bool.of_not_eq_true h1)
  · exact setLastValue_ne_nil v ps (isEmpty_false_ne_nil (Bool.of_not_eq_true h1))
  · simp
  · simp

theorem mergePeriod_lastValue (v : Nat) (ps : List Period) :
    periodsLastValue (mergePeriod v ps) = v := by
  unfold mergePeriod
  split_ifs with h1 h2 h3 h4
  · rfl
  · exact h2
  · exact periodsLastValue_setLastValue v ps (isEmpty_false_ne_nil (Bool.of_not_eq_true h1))
  · rfl
  · exact periodsLastValue_append_single ps ⟨v, []⟩

theorem mergePeriod_colsSum (v : Nat) (ps : List Period) :
    colsSum (mergePeriod v ps) =
      if ps.isEmpty = false ∧ periodsLastValue ps ≠ v ∧ periodsLastColsEmpty ps = false ∧
         MAX_PERIODS_COUNT ≤ ps.length
      then 0 else colsSum ps := by
  unfold mergePeriod
  split_ifs with h1 h2 h3 h4 <;>
    simp_all [setLastValue_colsSum, colsSum_append, colsSum_cons, colsSum_nil]

theorem mergePeriod_colsSum_le (v : Nat) (ps : List Period) :
    colsSum (mergePeriod v ps) ≤ colsSum ps := by
  rw [mergePeriod_colsSum]
  split_ifs <;> omega

theorem tapeUpdatePeriod_periods_ne_nil (v : Nat) (t : Tape) :
    (tapeUpdatePeriod v t).periods ≠ [] :=
  mergePeriod_ne_nil v _

theorem tapeUpdatePeriod_lastValue (v : Nat) (t : Tape) :
    periodsLastValue (tapeUpdatePeriod v t).periods = v :=
  mergePeriod_lastValue v _

theorem tapeUpdatePeriod_records_le (v : Nat) (t : Tape) :
    tapeRecords (tapeUpdatePeriod v t) ≤ MAX_COLUMNS_COUNT := by
  show colsSum (mergePeriod v _) ≤ MAX_COLUMNS_COUNT
  split_ifs with h1
  · calc colsSum (mergePeriod v (capColumnsGo MAX_COLUMNS_COUNT t.periods))
        ≤ colsSum (capColumnsGo MAX_COLUMNS_COUNT t.periods) := mergePeriod_colsSum_le _ _
      _ = min MAX_COLUMNS_COUNT (colsSum t.periods) := capColumnsGo_colsSum _ _
      _ ≤ MAX_COLUMNS_COUNT := Nat.min_le_left _ _
  · calc colsSum (mergePeriod v t.periods) ≤ colsSum t.periods := mergePeriod_colsSum_le _ _
      _ ≤ MAX_COLUMNS_COUNT := by
          have : ¬ MAX_COLUMNS_COUNT ≤ tapeRecords t := h1
          rw [tapeRecords_def] at this
          omega

theorem tapeUpdatePeriod_duplicate_noop (v : Nat) (t : Tape)
    (hne : t.periods ≠ []) (hlast : periodsLastValue t.periods = v)
    (hrec : tapeRecords t ≤ MAX_COLUMNS_COUNT) :
    tapeUpdatePeriod v t = t := by
  have hcap : (if MAX_COLUMNS_COUNT ≤ tapeRecords t
      then capColumnsGo MAX_COLUMNS_COUNT t.periods else t.periods) = t.periods := by
    split_ifs with h
    · exact capColumnsGo_of_le MAX_COLUMNS_COUNT t.periods (by rw [tapeRecords_def] at hrec; exact hrec)
    · rfl
  show (⟨mergePeriod v _⟩ : Tape) = t
  rw [hcap]
  unfold mergePeriod
  rw [if_neg (by simp [hne]), if_pos hlast]

theorem tapeUpdatePeriod_idem (v : Nat) (t : Tape) :
    tapeUpdatePeriod v (tapeUpdatePeriod v t) = tapeUpdatePeriod v t :=
  tapeUpdatePeriod_duplicate_noop v _ (tapeUpdatePeriod_periods_ne_nil v t)
    (tapeUpdatePeriod_lastValue v t) (tapeUpdatePeriod_records_le v t)

theorem tapeRewind_records (t : Tape) : tapeRecords (tapeRewind t) = 0 := by
  unfold tapeRewind
  split_ifs <;> simp [tapeRecords_def, colsSum]

theorem tapeRewind_lastValue (t : Tape) :
    periodsLastValue (tapeRewind t).periods = periodsLastValue t.periods := by
  unfold tapeRewind
  split_ifs with h
  · have : t.periods = [] := by simpa [List.isEmpty_iff] using h
    rw [this]
  · rfl

theorem tapeUpdatePeriod_records_le_input (v : Nat) (t : Tape) :
    tapeRecords (tapeUpdatePeriod v t) ≤ tapeRecords t := by
  show colsSum (mergePeriod v _) ≤ tapeRecords t
  split_ifs with h1
  · calc colsSum (mergePeriod v (capColumnsGo MAX_COLUMNS_COUNT t.periods))
        ≤ colsSum (capColumnsGo MAX_COLUMNS_COUNT t.periods) := mergePeriod_colsSum_le _ _
      _ = min MAX_COLUMNS_COUNT (colsSum t.periods) := capColumnsGo_colsSum _ _
      _ ≤ tapeRecords t := by rw [tapeRecords_def]; omega
  · exact mergePeriod_colsSum_le _ _

theorem periodsLastValue_appendColsLast (c : Column) :
    ∀ ps : List Period, periodsLastValue (appendColsLast c ps) = periodsLastValue ps
  | [] => rfl
  | [p] => by simp [appendColsLast, periodsLastValue]
  | p :: q :: ps => by
    have ih := periodsLastValue_appendColsLast c (q :: ps)
    cases hqs : appendColsLast c (q :: ps) with
    | nil => exact absurd hqs (appendColsLast_ne_nil c (q :: ps) (by simp))
    | cons r rs =>
      simp only [appendColsLast, hqs, periodsLastValue]
      rw [← hqs, ih]

theorem tapeAddColumnClears_iff (p : Nat) (t : Tape) :
    tapeAddColumnClears p t = true ↔
      (MAX_COLUMNS_COUNT ≤ tapeRecords t ∨
       (t.periods.isEmpty = false ∧ periodsLastValue t.periods ≠ p ∧
        periodsLastColsEmpty t.periods = false ∧ MAX_PERIODS_COUNT ≤ t.periods.length)) := by
  unfold tapeAddColumnClears
  split_ifs with h1 h2 h3 h4 <;> simp_all

theorem tapeAddColumn_fst (p : Nat) (m : List Int) (t : Tape) :
    (tapeAddColumn p m t).1 =
      (MAX_COLUMNS_COUNT : Int) - (tapeRecords (tapeAddColumn p m t).2 : Nat) := rfl

theorem tapeAddColumn_records (p : Nat) (m : List Int) (t : Tape) :
    tapeRecords (tapeAddColumn p m t).2 =
      if tapeAddColumnClears p t then 1 else tapeRecords t + 1 := by
  have hstep : ∀ t1 : Tape,
      tapeRecords (⟨appendColsLast ⟨m.take MAX_TRACKS_COUNT⟩ (tapeUpdatePeriod p t1).periods⟩ : Tape)
        = tapeRecords (tapeUpdatePeriod p t1) + 1 := by
    intro t1
    show colsSum (appendColsLast _ _) = colsSum _ + 1
    exact appendColsLast_colsSum _ _ (tapeUpdatePeriod_periods_ne_nil p t1)
  by_cases hfull : MAX_COLUMNS_COUNT ≤ tapeRecords t
  · have hclears : tapeAddColumnClears p t = true := by
      rw [tapeAddColumnClears_iff]
      exact Or.inl hfull
    have h2 : tapeRecords (tapeUpdatePeriod p (tapeRewind t)) = 0 := by
      have := tapeUpdatePeriod_records_le_input p (tapeRewind t)
      rw [tapeRewind_records] at this
      omega
    simp only [tapeAddColumn]
    rw [if_pos hfull, hclears, hstep (tapeRewind t), h2, if_pos rfl]
  · have hup : tapeRecords (tapeUpdatePeriod p t) = colsSum (mergePeriod p t.periods) := by
      show colsSum (mergePeriod p (if MAX_COLUMNS_COUNT ≤ tapeRecords t
          then capColumnsGo MAX_COLUMNS_COUNT t.periods else t.periods)) = _
      rw [if_neg hfull]
    by_cases hreset : (t.periods.isEmpty = false ∧ periodsLastValue t.periods ≠ p ∧
        periodsLastColsEmpty t.periods = false ∧ MAX_PERIODS_COUNT ≤ t.periods.length)
    · have hclears : tapeAddColumnClears p t = true := by
        rw [tapeAddColumnClears_iff]
        exact Or.inr hreset
      have h2 : tapeRecords (tapeUpdatePeriod p t) = 0 := by
        rw [hup, mergePeriod_colsSum, if_pos hreset]
      simp only [tapeAddColumn]
      rw [if_neg hfull, hclears, hstep t, h2, if_pos rfl]
    · have hclears : tapeAddColumnClears p t = false := by
        rw [← Bool.not_eq_true, tapeAddColumnClears_iff]
        push_neg
        refine ⟨by omega, ?_⟩
        intro h1 h2 h3
        by_contra h4
        exact hreset ⟨h1, h2, h3, le_of_not_lt h4⟩
      have h2 : tapeRecords (tapeUpdatePeriod p t) = tapeRecords t := by
        rw [hup, mergePeriod_colsSum, if_neg hreset, tapeRecords_def]
      simp only [tapeAddColumn]
      rw [if_neg hfull, hclears, hstep t, h2]
      simp

theorem tapeAddColumn_lastColumn (p : Nat) (m : List Int) (t : Tape) :
    tapeLastColumn (tapeAddColumn p m t).2 = some ⟨m.take MAX_TRACKS_COUNT⟩ := by
  simp only [tapeAddColumn]
  show (periodsLastColumns (appendColsLast _ _)).getLast? = _
  rw [periodsLastColumns_appendColsLast _ _ (tapeUpdatePeriod_periods_ne_nil _ _)]
  simp

theorem tapeAddColumn_lastValue (p : Nat) (m : List Int) (t : Tape) :
    periodsLastValue (tapeAddColumn p m t).2.periods = p := by
  simp only [tapeAddColumn]
  show periodsLastValue (appendColsLast _ _) = p
  rw [periodsLastValue_appendColsLast, tapeUpdatePeriod_lastValue]

theorem tapeAddColumn_wrap_eq (p : Nat) (m : List Int) (t : Tape)
    (h : MAX_COLUMNS_COUNT ≤ tapeRecords t) :
    tapeAddColumn p m t = tapeAddColumn p m (tapeRewind t) := by
  simp only [tapeAddColumn]
  rw [if_pos h, if_neg (by rw [tapeRewind_records]; simp [MAX_COLUMNS_COUNT])]

theorem capColumnsGo_map_value :
    ∀ (b : Nat) (ps : List Period),
      (capColumnsGo b ps).map Period.value = ps.map Period.value
  | _, [] => rfl
  | b, p :: ps => by
    have ih := capColumnsGo_map_value (b - p.columns.length) ps
    simp only [capColumnsGo, List.map_cons, ih]

theorem capColumnsGo_length (b : Nat) (ps : List Period) :
    (capColumnsGo b ps).length = ps.length := by
  have := capColumnsGo_map_value b ps
  have h1 := congrArg List.length this
  simpa using h1

theorem capColumnsGo_lastValue :
    ∀ (b : Nat) (ps : List Period),
      periodsLastValue (capColumnsGo b ps) = periodsLastValue ps
  | _, [] => rfl
  | b, [p] => by simp [capColumnsGo, periodsLastValue]
  | b, p :: q :: ps => by
    have ih := capColumnsGo_lastValue (b - p.columns.length) (q :: ps)
    simp only [capColumnsGo, periodsLastValue]
    exact ih

theorem tapeAddColumn_records_bounds (p : Nat) (m : List Int) (t : Tape) :
    1 ≤ tapeRecords (tapeAddColumn p m t).2 ∧
      tapeRecords (tapeAddColumn p m t).2 ≤ MAX_COLUMNS_COUNT := by
  have hM : MAX_COLUMNS_COUNT = 50 := rfl
  rw [tapeAddColumn_records]
  split_ifs with h
  · omega
  · have h2 : tapeAddColumnClears p t = false := by simpa using h
    have h3 : ¬ MAX_COLUMNS_COUNT ≤ tapeRecords t := by
      intro hle
      have := (tapeAddColumnClears_iff p t).2 (Or.inl hle)
      rw [h2] at this
      exact Bool.false_ne_true this
    omega

/-! ## Store-level bridge lemmas (the only valid tape index is 0) -/

theorem tapeIndex_eq_zero {i : Nat} (h : i < MAX_TAPE_COUNT) : i = 0 := by
  have hM : MAX_TAPE_COUNT = 1 := rfl
  omega

theorem addColumnToTape_zero (p : Nat) (m : List Int) (s : TapeStore) :
    addColumnToTape 0 p m s =
      ((tapeAddColumn p m s.tape).1, ⟨(tapeAddColumn p m s.tape).2⟩) := by
  simp [addColumnToTape, MAX_TAPE_COUNT]

theorem getTapeRecordsCount_zero (s : TapeStore) :
    getTapeRecordsCount 0 s = tapeRecords s.tape := by
  simp [getTapeRecordsCount, MAX_TAPE_COUNT]

theorem getLastPeriod_zero (s : TapeStore) :
    getLastPeriod 0 s = periodsLastValue s.tape.periods := by
  simp [getLastPeriod, MAX_TAPE_COUNT]

theorem rewindTape_zero (s : TapeStore) : rewindTape 0 s = ⟨tapeRewind s.tape⟩ := by
  simp [rewindTape, MAX_TAPE_COUNT]

theorem updatePeriod_zero (v : Nat) (s : TapeStore) :
    updatePeriod 0 v s = ⟨tapeUpdatePeriod v s.tape⟩ := by
  simp [updatePeriod, MAX_TAPE_COUNT]

/-! ## Concrete stores used as test inputs -/

/-- A tape filled to its column capacity of 50 with period 300 (spec §8
scenario A). -/
def fullTapeEx : TapeStore :=
  ⟨⟨[⟨300, List.replicate MAX_COLUMNS_COUNT ⟨List.replicate MAX_TRACKS_COUNT 0⟩⟩]⟩⟩

/-- A store whose periods array is full (3 entries) and whose last entry has
no columns yet. -/
def periodsFullLastEmptyEx : TapeStore :=
  ⟨⟨[⟨100, [⟨[1]⟩]⟩, ⟨200, [⟨[2]⟩]⟩, ⟨300, []⟩]⟩⟩

/-- A store whose periods array is full (3 entries), all entries carrying
columns. -/
def periodsFullEx : TapeStore :=
  ⟨⟨[⟨100, [⟨[1]⟩]⟩, ⟨200, [⟨[2]⟩]⟩, ⟨300, [⟨[3]⟩]⟩]⟩⟩

/-- Four `addColumnToTape` calls with four distinct period values. -/
def fourPeriodCallsEx : List (Nat × List Int) :=
  [(100, List.replicate MAX_TRACKS_COUNT 0), (200, List.replicate MAX_TRACKS_COUNT 0),
   (300, List.replicate MAX_TRACKS_COUNT 0), (400, List.replicate MAX_TRACKS_COUNT 0)]

/-! ## Claim theorems -/

/-- C3: for every valid tape index and measurement array of
`MAX_TRACKS_COUNT` values, `addColumnToTape` appends one column (which
becomes the tape's most recent column) and returns the number of remaining
empty column slots, a value ≥ 0; for every out-of-range tape index it
returns `-EINVAL` and leaves the store unchanged; and on a tape at column
capacity it performs the implicit wrap — behaving exactly as `rewindTape`
followed by the same call — instead of returning an error. -/
theorem C3_addColumnToTape_contract (s : TapeStore) (i period : Nat) (meas : List Int)
    (hm : meas.length = MAX_TRACKS_COUNT) :
    (i < MAX_TAPE_COUNT →
      0 ≤ (addColumnToTape i period meas s).1 ∧
      (addColumnToTape i period meas s).1 =
        (MAX_COLUMNS_COUNT : Int) - (getTapeRecordsCount i (addColumnToTape i period meas s).2 : Nat) ∧
      tapeLastColumn (addColumnToTape i period meas s).2.tape = some ⟨meas⟩ ∧
      (MAX_COLUMNS_COUNT ≤ getTapeRecordsCount i s →
        addColumnToTape i period meas s = addColumnToTape i period meas (rewindTape i s))) ∧
    (MAX_TAPE_COUNT ≤ i →
      (addColumnToTape i period meas s).1 = -EINVAL ∧
      (addColumnToTape i period meas s).2 = s) := by
  constructor
  · intro hi
    rcases tapeIndex_eq_zero hi with rfl
    have hb := tapeAddColumn_records_bounds period meas s.tape
    refine ⟨?_, ?_, ?_, ?_⟩
    · rw [addColumnToTape_zero, tapeAddColumn_fst]
      have hM : MAX_COLUMNS_COUNT = 50 := rfl
      omega
    · rw [addColumnToTape_zero, getTapeRecordsCount_zero]
      exact tapeAddColumn_fst period meas s.tape
    · rw [addColumnToTape_zero]
      show tapeLastColumn (tapeAddColumn period meas s.tape).2 = _
      rw [tapeAddColumn_lastColumn, List.take_of_length_le (le_of_eq hm)]
    · intro hfull
      rw [getTapeRecordsCount_zero] at hfull
      rw [addColumnToTape_zero, rewindTape_zero, addColumnToTape_zero]
      have := tapeAddColumn_wrap_eq period meas s.tape hfull
      rw [this]
  · intro hi
    have hne : ¬ i < MAX_TAPE_COUNT := by
      have hM : MAX_TAPE_COUNT = 1 := rfl
      omega
    constructor
    · simp [addColumnToTape, hne]
    · simp [addColumnToTape, hne]

/-- C3 witness: the contract instantiated on the empty store, tape 0,
period 300, a 12-value measurement array. -/
theorem C3_addColumnToTape_contract_witness :
    (List.replicate MAX_TRACKS_COUNT (0 : Int)).length = MAX_TRACKS_COUNT ∧
    (0 : Nat) < MAX_TAPE_COUNT ∧
    0 ≤ (addColumnToTape 0 300 (List.replicate MAX_TRACKS_COUNT (0 : Int)) ⟨⟨[]⟩⟩).1 :=
  ⟨by decide, by decide,
   ((C3_addColumnToTape_contract ⟨⟨[]⟩⟩ 0 300
       (List.replicate MAX_TRACKS_COUNT (0 : Int)) (by decide)).1 (by decide)).1⟩

/-- C4 counterexample: a tape filled to its capacity of 50 columns at
period 300; the claim states that after one further `addColumnToTape` the
record count is 0, but the call wraps and then appends its column, leaving
a count of 1. -/
theorem C4_overflow_counterexample :
    getTapeRecordsCount 0 fullTapeEx = MAX_COLUMNS_COUNT ∧
    getLastPeriod 0 fullTapeEx = 300 ∧
    getTapeRecordsCount 0
      (addColumnToTape 0 300 (List.replicate MAX_TRACKS_COUNT 0) fullTapeEx).2 = 1 ∧
    getTapeRecordsCount 0
      (addColumnToTape 0 300 (List.replicate MAX_TRACKS_COUNT 0) fullTapeEx).2 ≠ 0 := by
  decide

/-- C4 (amended): for a tape at column capacity, one further
`addColumnToTape` triggers exactly one wrap: the call behaves identically
to `rewindTape` followed by the same call (round-trip equivalence); the
record count is 0 immediately after the wrap (the rewound state), and 1
after the call completes (the freshly appended column); `getLastPeriod`
afterwards returns the inserted period value — in particular the pre-wrap
period 300 of scenario A, where the same period is re-inserted. -/
theorem C4_overflow_wrap_amended (s : TapeStore) (p : Nat) (m : List Int)
    (h : MAX_COLUMNS_COUNT ≤ getTapeRecordsCount 0 s) :
    getTapeRecordsCount 0 (rewindTape 0 s) = 0 ∧
    getTapeRecordsCount 0 (addColumnToTape 0 p m s).2 = 1 ∧
    getLastPeriod 0 (addColumnToTape 0 p m s).2 = p ∧
    (p = getLastPeriod 0 s → getLastPeriod 0 (addColumnToTape 0 p m s).2 = getLastPeriod 0 s) ∧
    addColumnToTape 0 p m s = addColumnToTape 0 p m (rewindTape 0 s) := by
  rw [getTapeRecordsCount_zero] at h
  have h3 : getLastPeriod 0 (addColumnToTape 0 p m s).2 = p := by
    rw [addColumnToTape_zero, getLastPeriod_zero]
    exact tapeAddColumn_lastValue p m s.tape
  refine ⟨?_, ?_, h3, ?_, ?_⟩
  · rw [rewindTape_zero, getTapeRecordsCount_zero]
    exact tapeRewind_records s.tape
  · rw [addColumnToTape_zero, getTapeRecordsCount_zero]
    show tapeRecords (tapeAddColumn p m s.tape).2 = 1
    rw [tapeAddColumn_records, if_pos ((tapeAddColumnClears_iff p s.tape).2 (Or.inl h))]
  · intro hp
    rw [h3, hp]
  · rw [addColumnToTape_zero, rewindTape_zero, addColumnToTape_zero]
    show ((tapeAddColumn p m s.tape).1, (⟨(tapeAddColumn p m s.tape).2⟩ : TapeStore)) = _
    rw [tapeAddColumn_wrap_eq p m s.tape h]

/-- C4 witness: the amended wrap behavior instantiated on the concrete
full tape of scenario A. -/
theorem C4_overflow_wrap_amended_witness :
    MAX_COLUMNS_COUNT ≤ getTapeRecordsCount 0 fullTapeEx ∧
    getTapeRecordsCount 0
      (addColumnToTape 0 300 (List.replicate MAX_TRACKS_COUNT 0) fullTapeEx).2 = 1 :=
  ⟨by decide,
   (C4_overflow_wrap_amended fullTapeEx 300 (List.replicate MAX_TRACKS_COUNT 0)
      (by decide)).2.1⟩

/-- C5: calling `updatePeriod` with a value equal to the tape's current
last period never creates a second period entry (the period-entry values
and their number are unchanged on every tape state), is a strict no-op on
every state within the column capacity, and the same period insertion
applied twice yields the same state as applied once, on every state. -/
theorem C5_updatePeriod_duplicate_idempotent (s : TapeStore) (v : Nat) :
    (s.tape.periods ≠ [] → periodsLastValue s.tape.periods = v →
      (updatePeriod 0 v s).tape.periods.map Period.value = s.tape.periods.map Period.value ∧
      (updatePeriod 0 v s).tape.periods.length = s.tape.periods.length) ∧
    (s.tape.periods ≠ [] → periodsLastValue s.tape.periods = v →
      getTapeRecordsCount 0 s ≤ MAX_COLUMNS_COUNT → updatePeriod 0 v s = s) ∧
    updatePeriod 0 v (updatePeriod 0 v s) = updatePeriod 0 v s := by
  have key : ∀ ps : List Period, ps ≠ [] → periodsLastValue ps = v → mergePeriod v ps = ps := by
    intro ps hne hlast
    unfold mergePeriod
    rw [if_neg (by simp [hne]), if_pos hlast]
  refine ⟨?_, ?_, ?_⟩
  · intro hne hlast
    have hcne : capColumnsGo MAX_COLUMNS_COUNT s.tape.periods ≠ [] := by
      intro h0
      have := capColumnsGo_length MAX_COLUMNS_COUNT s.tape.periods
      rw [h0] at this
      exact hne (List.eq_nil_of_length_eq_zero this.symm)
    have hclast : periodsLastValue (capColumnsGo MAX_COLUMNS_COUNT s.tape.periods) = v := by
      rw [capColumnsGo_lastValue]
      exact hlast
    have hper : (updatePeriod 0 v s).tape.periods =
        (if MAX_COLUMNS_COUNT ≤ tapeRecords s.tape
         then capColumnsGo MAX_COLUMNS_COUNT s.tape.periods else s.tape.periods) := by
      rw [updatePeriod_zero]
      show mergePeriod v _ = _
      split_ifs with hc
      · exact key _ hcne hclast
      · exact key _ hne hlast
    constructor
    · rw [hper]
      split_ifs with hc
      · exact capColumnsGo_map_value _ _
      · rfl
    · rw [hper]
      split_ifs with hc
      · exact capColumnsGo_length _ _
      · rfl
  · intro hne hlast hrec
    rw [getTapeRecordsCount_zero] at hrec
    rw [updatePeriod_zero, tapeUpdatePeriod_duplicate_noop v s.tape hne hlast hrec]
  · rw [updatePeriod_zero, updatePeriod_zero]
    show (⟨tapeUpdatePeriod v (tapeUpdatePeriod v s.tape)⟩ : TapeStore) =
      (⟨tapeUpdatePeriod v s.tape⟩ : TapeStore)
    rw [tapeUpdatePeriod_idem]

/-- C6 counterexample: four `addColumnToTape` calls right after a rewind,
with four distinct period values and far below the column capacity: the
claim demands a record count of 4, but the periods-array overflow reset
inside the fourth call leaves a count of 1. -/
theorem C6_records_counterexample :
    fourPeriodCallsEx.length = 4 ∧
    getTapeRecordsCount 0 (runAdds fourPeriodCallsEx (rewindTape 0 ⟨⟨[]⟩⟩)) = 1 ∧
    getTapeRecordsCount 0 (runAdds fourPeriodCallsEx (rewindTape 0 ⟨⟨[]⟩⟩)) ≠
      fourPeriodCallsEx.length := by
  decide

/-- C6 (amended): after any sequence of `addColumnToTape` calls,
`getTapeRecordsCount` equals the number of calls made since the most
recent clearing event, where a clearing event is `rewindTape`, the
implicit column-capacity wrap, or the periods-array overflow reset
(triggered when a call's period value would create a fourth period entry);
formally, the count after a run equals the calls-since-last-clear counter
seeded with the count before the run. -/
theorem C6_records_count_amended (L : List (Nat × List Int)) (s : TapeStore) :
    getTapeRecordsCount 0 (runAdds L s) = sinceClear L s (getTapeRecordsCount 0 s) := by
  induction L generalizing s with
  | nil => rfl
  | cons c rest ih =>
    obtain ⟨p, m⟩ := c
    simp only [runAdds, sinceClear]
    rw [ih]
    congr 1
    rw [getTapeRecordsCount_zero, addColumnToTape_zero, getTapeRecordsCount_zero]
    show tapeRecords (tapeAddColumn p m s.tape).2 = _
    rw [tapeAddColumn_records]

/-- C10 counterexample: a store whose periods array is full (3 entries)
and whose last entry has no columns: `updatePeriod` with the fresh value
400 overwrites the empty last entry in place instead of resetting the
whole periods array, leaving 3 period entries rather than the single reset
entry the claim describes. -/
theorem C10_reset_counterexample :
    periodsFullLastEmptyEx.tape.periods.length = MAX_PERIODS_COUNT ∧
    400 ∉ periodsFullLastEmptyEx.tape.periods.map Period.value ∧
    (updatePeriod 0 400 periodsFullLastEmptyEx).tape.periods.length = 3 ∧
    (updatePeriod 0 400 periodsFullLastEmptyEx).tape.periods ≠ [⟨400, []⟩] := by
  decide

/-- C10 (amended): when the periods array already holds
`MAX_PERIODS_COUNT` entries and `updatePeriod` is called with a value
distinct from all stored periods, the operation resets the whole periods
array and stores the new value — except when the last entry has no columns
yet, in which case that entry is overwritten in place (the entry count is
retained and the new value becomes the last period); and `updatePeriod`
caps the tape's column count at `MAX_COLUMNS_COUNT` whenever that count is
at or above `MAX_COLUMNS_COUNT`. -/
theorem C10_updatePeriod_overflow_amended (s : TapeStore) (v : Nat) :
    (MAX_PERIODS_COUNT ≤ s.tape.periods.length →
     v ∉ s.tape.periods.map Period.value →
     getTapeRecordsCount 0 s ≤ MAX_COLUMNS_COUNT →
      (periodsLastColsEmpty s.tape.periods = false →
        (updatePeriod 0 v s).tape.periods = [⟨v, []⟩]) ∧
      (periodsLastColsEmpty s.tape.periods = true →
        (updatePeriod 0 v s).tape.periods = setLastValue v s.tape.periods ∧
        (updatePeriod 0 v s).tape.periods.length = s.tape.periods.length ∧
        periodsLastValue (updatePeriod 0 v s).tape.periods = v)) ∧
    (MAX_COLUMNS_COUNT ≤ getTapeRecordsCount 0 s →
      getTapeRecordsCount 0 (updatePeriod 0 v s) ≤ MAX_COLUMNS_COUNT) := by
  constructor
  · intro hlen hnotmem hrec
    have hne : s.tape.periods ≠ [] := by
      intro h0
      rw [h0] at hlen
      simp [MAX_PERIODS_COUNT] at hlen
    have hlast : ¬ periodsLastValue s.tape.periods = v := by
      intro he
      exact hnotmem (he ▸ periodsLastValue_mem _ hne)
    have hform : (updatePeriod 0 v s).tape.periods = mergePeriod v s.tape.periods := by
      rw [updatePeriod_zero]
      show mergePeriod v _ = _
      split_ifs with hc
      · rw [capColumnsGo_of_le _ _ (by rw [getTapeRecordsCount_zero, tapeRecords_def] at hrec; exact hrec)]
      · rfl
    constructor
    · intro hcols
      rw [hform]
      unfold mergePeriod
      rw [if_neg (by simp [hne]), if_neg hlast, if_neg (by simp [hcols]), if_pos hlen]
    · intro hcols
      rw [hform]
      unfold mergePeriod
      rw [if_neg (by simp [hne]), if_neg hlast, if_pos hcols]
      exact ⟨rfl, setLastValue_length v _, periodsLastValue_setLastValue v _ hne⟩
  · intro h50
    rw [updatePeriod_zero, getTapeRecordsCount_zero]
    exact tapeUpdatePeriod_records_le v s.tape

/-- C10 witness: the amended overflow behavior instantiated on the
concrete full periods array whose entries all hold columns. -/
theorem C10_updatePeriod_overflow_amended_witness :
    (MAX_PERIODS_COUNT ≤ periodsFullEx.tape.periods.length ∧
     400 ∉ periodsFullEx.tape.periods.map Period.value ∧
     getTapeRecordsCount 0 periodsFullEx ≤ MAX_COLUMNS_COUNT ∧
     periodsLastColsEmpty periodsFullEx.tape.periods = false) ∧
    (updatePeriod 0 400 periodsFullEx).tape.periods = [⟨400, []⟩] :=
  ⟨⟨by decide, by decide, by decide, by decide⟩,
   ((C10_updatePeriod_overflow_amended periodsFullEx 400).1 (by decide) (by decide)
      (by decide)).1 (by decide)⟩

/-- C5 witness: the duplicate insertion instantiated on a one-period tape
holding one column at period 300. -/
theorem C5_updatePeriod_duplicate_idempotent_witness :
    ((⟨⟨[⟨300, [⟨[5]⟩]⟩]⟩⟩ : TapeStore).tape.periods ≠ [] ∧
     periodsLastValue (⟨⟨[⟨300, [⟨[5]⟩]⟩]⟩⟩ : TapeStore).tape.periods = 300 ∧
     getTapeRecordsCount 0 (⟨⟨[⟨300, [⟨[5]⟩]⟩]⟩⟩ : TapeStore) ≤ MAX_COLUMNS_COUNT) ∧
    updatePeriod 0 300 (⟨⟨[⟨300, [⟨[5]⟩]⟩]⟩⟩ : TapeStore) = ⟨⟨[⟨300, [⟨[5]⟩]⟩]⟩⟩ :=
  ⟨⟨by decide, by decide, by decide⟩,
   (C5_updatePeriod_duplicate_idempotent ⟨⟨[⟨300, [⟨[5]⟩]⟩]⟩⟩ 300).2.1
     (by decide) (by decide) (by decide)⟩

/-- C9: every settings setter with documented numeric bounds returns
`-EINVAL` on an out-of-range argument and leaves the stored settings
unchanged, while an in-range call returns 0 and stores the argument:
`setLogFileMaxSize` (1024-1048576 bytes), `setLTEConnectionTimeout`
(1-1800 seconds), `setUplinkTimeout` (5-1440 minutes),
`setNoPsmUplinkTimeout` (1-24 hours), `setResendPacketInitialTimeout`
(1-60 minutes), `setMaxResendTimeout` (1-24 hours),
`setMaxResendAttempts` (1-10), `setLogRotationFrequency` (1-50 cycles),
`setResponseWaitTimeout` (1-60 seconds), `setFileUlRetries` (1-10), and
`setNumOfLogFiles` (1-20). -/
theorem C9_settings_setter_bounds (s : Settings) (x : Nat) (y : Int) :
    ((1024 ≤ y ∧ y ≤ 1048576) →
      (setLogFileMaxSize y s).1 = 0 ∧
      getLogFileMaxSize (setLogFileMaxSize y s).2 = y) ∧
    (¬(1024 ≤ y ∧ y ≤ 1048576) →
      (setLogFileMaxSize y s).1 = -EINVAL ∧ (setLogFileMaxSize y s).2 = s) ∧
    ((1 ≤ x ∧ x ≤ 1800) →
      (setLTEConnectionTimeout x s).1 = 0 ∧
      getLTEConnectionTimeout (setLTEConnectionTimeout x s).2 = x) ∧
    (¬(1 ≤ x ∧ x ≤ 1800) →
      (setLTEConnectionTimeout x s).1 = -EINVAL ∧ (setLTEConnectionTimeout x s).2 = s) ∧
    ((5 ≤ x ∧ x ≤ 1440) →
      (setUplinkTimeout x s).1 = 0 ∧
      getUplinkTimeout (setUplinkTimeout x s).2 = x) ∧
    (¬(5 ≤ x ∧ x ≤ 1440) →
      (setUplinkTimeout x s).1 = -EINVAL ∧ (setUplinkTimeout x s).2 = s) ∧
    ((1 ≤ x ∧ x ≤ 24) →
      (setNoPsmUplinkTimeout x s).1 = 0 ∧
      getNoPsmUplinkTimeout (setNoPsmUplinkTimeout x s).2 = x) ∧
    (¬(1 ≤ x ∧ x ≤ 24) →
      (setNoPsmUplinkTimeout x s).1 = -EINVAL ∧ (setNoPsmUplinkTimeout x s).2 = s) ∧
    ((1 ≤ x ∧ x ≤ 60) →
      (setResendPacketInitialTimeout x s).1 = 0 ∧
      getResendPacketInitialTimeout (setResendPacketInitialTimeout x s).2 = x) ∧
    (¬(1 ≤ x ∧ x ≤ 60) →
      (setResendPacketInitialTimeout x s).1 = -EINVAL ∧
      (setResendPacketInitialTimeout x s).2 = s) ∧
    ((1 ≤ x ∧ x ≤ 24) →
      (setMaxResendTimeout x s).1 = 0 ∧
      getMaxResendTimeout (setMaxResendTimeout x s).2 = x) ∧
    (¬(1 ≤ x ∧ x ≤ 24) →
      (setMaxResendTimeout x s).1 = -EINVAL ∧ (setMaxResendTimeout x s).2 = s) ∧
    ((1 ≤ x ∧ x ≤ 10) →
      (setMaxResendAttempts x s).1 = 0 ∧
      getMaxResendAttempts (setMaxResendAttempts x s).2 = x) ∧
    (¬(1 ≤ x ∧ x ≤ 10) →
      (setMaxResendAttempts x s).1 = -EINVAL ∧ (setMaxResendAttempts x s).2 = s) ∧
    ((1 ≤ x ∧ x ≤ 50) →
      (setLogRotationFrequency x s).1 = 0 ∧
      getLogRotationFrequency (setLogRotationFrequency x s).2 = x) ∧
    (¬(1 ≤ x ∧ x ≤ 50) →
      (setLogRotationFrequency x s).1 = -EINVAL ∧ (setLogRotationFrequency x s).2 = s) ∧
    ((1 ≤ x ∧ x ≤ 60) →
      (setResponseWaitTimeout x s).1 = 0 ∧
      getResponseWaitTimeout (setResponseWaitTimeout x s).2 = x) ∧
    (¬(1 ≤ x ∧ x ≤ 60) →
      (setResponseWaitTimeout x s).1 = -EINVAL ∧ (setResponseWaitTimeout x s).2 = s) ∧
    ((1 ≤ x ∧ x ≤ 10) →
      (setFileUlRetries x s).1 = 0 ∧
      getFileUlRetries (setFileUlRetries x s).2 = x) ∧
    (¬(1 ≤ x ∧ x ≤ 10) →
      (setFileUlRetries x s).1 = -EINVAL ∧ (setFileUlRetries x s).2 = s) ∧
    ((1 ≤ x ∧ x ≤ 20) →
      (setNumOfLogFiles x s).1 = 0 ∧
      getNumOfLogFiles (setNumOfLogFiles x s).2 = x) ∧
    (¬(1 ≤ x ∧ x ≤ 20) →
      (setNumOfLogFiles x s).1 = -EINVAL ∧ (setNumOfLogFiles x s).2 = s) := by
  refine ⟨fun h => ?_, fun h => ?_, fun h => ?_, fun h => ?_, fun h => ?_, fun h => ?_,
         fun h => ?_, fun h => ?_, fun h => ?_, fun h => ?_, fun h => ?_, fun h => ?_,
         fun h => ?_, fun h => ?_, fun h => ?_, fun h => ?_, fun h => ?_, fun h => ?_,
         fun h => ?_, fun h => ?_, fun h => ?_, fun h => ?_⟩ <;>
    simp [setLogFileMaxSize, setLTEConnectionTimeout, setUplinkTimeout,
          setNoPsmUplinkTimeout, setResendPacketInitialTimeout, setMaxResendTimeout,
          setMaxResendAttempts, setLogRotationFrequency, setResponseWaitTimeout,
          setFileUlRetries, setNumOfLogFiles, getLogFileMaxSize,
          getLTEConnectionTimeout, getUplinkTimeout, getNoPsmUplinkTimeout,
          getResendPacketInitialTimeout, getMaxResendTimeout, getMaxResendAttempts,
          getLogRotationFrequency, getResponseWaitTimeout, getFileUlRetries,
          getNumOfLogFiles, h]

/-- C9 witness: the bounds instantiated on a concrete settings record —
`setLogFileMaxSize` in range at 4096 and out of range at 7, and
`setLTEConnectionTimeout` in range at 30. -/
theorem C9_settings_setter_bounds_witness :
    ((1024 ≤ (4096 : Int) ∧ (4096 : Int) ≤ 1048576) ∧
      (setLogFileMaxSize 4096 settingsEx).1 = 0 ∧
      getLogFileMaxSize (setLogFileMaxSize 4096 settingsEx).2 = 4096) ∧
    (¬(1024 ≤ (7 : Int) ∧ (7 : Int) ≤ 1048576) ∧
      (setLogFileMaxSize 7 settingsEx).1 = -EINVAL ∧
      (setLogFileMaxSize 7 settingsEx).2 = settingsEx) ∧
    ((1 ≤ 30 ∧ 30 ≤ 1800) ∧
      (setLTEConnectionTimeout 30 settingsEx).1 = 0 ∧
      getLTEConnectionTimeout (setLTEConnectionTimeout 30 settingsEx).2 = 30) :=
  ⟨⟨by decide, (C9_settings_setter_bounds settingsEx 30 4096).1 (by decide)⟩,
   ⟨by decide, (C9_settings_setter_bounds settingsEx 30 7).2.1 (by decide)⟩,
   ⟨by decide, (C9_settings_setter_bounds settingsEx 30 4096).2.2.1 (by decide)⟩⟩

/-- C7: the Pending Action Slot holds at most one pending action: each of
`postponeUpgradeFw`, `postponeLogRead`, `postponeTerminalCmd`, called
while the slot is occupied by a request of a different kind, is a no-op
that retains the previous value; and once the slot reports empty
(`getRequestedAction` = 0) each postponement is accepted and stored. -/
theorem C7_pending_action_slot (s : ActionSlot) (b : PendingAction)
    (path cmd : List Nat) (len size : Nat) :
    (s.pending = some b →
      (actionCode b ≠ 1 → postponeUpgradeFw path len s = s) ∧
      (actionCode b ≠ 2 → postponeLogRead s = s) ∧
      (actionCode b ≠ 3 → postponeTerminalCmd cmd size s = s)) ∧
    (getRequestedAction s = 0 →
      (postponeUpgradeFw path len s).pending = some (.upgradeFw (path.take len)) ∧
      (postponeLogRead s).pending = some .logRead ∧
      (postponeTerminalCmd cmd size s).pending = some (.terminalCmd (cmd.take size))) := by
  have hempty : getRequestedAction s = 0 → s.pending = none := by
    intro h
    cases hp : s.pending with
    | none => rfl
    | some a =>
      rw [getRequestedAction, hp] at h
      cases a <;> simp [actionCode] at h
  constructor
  · intro hb
    refine ⟨fun hc => ?_, fun hc => ?_, fun hc => ?_⟩ <;>
    · simp [postponeUpgradeFw, postponeLogRead, postponeTerminalCmd, postponeAction, hb,
            actionCode]
      exact fun hx => absurd hx hc
  · intro h0
    rw [postponeUpgradeFw, postponeLogRead, postponeTerminalCmd, postponeAction,
        postponeAction, postponeAction, hempty h0]
    exact ⟨rfl, rfl, rfl⟩

/-- C7 witness: a slot occupied by a log-read request refuses a firmware
postponement, and an empty slot accepts it. -/
theorem C7_pending_action_slot_witness :
    ((⟨some .logRead⟩ : ActionSlot).pending = some PendingAction.logRead ∧
     actionCode PendingAction.logRead ≠ 1 ∧
     postponeUpgradeFw [7] 1 ⟨some .logRead⟩ = ⟨some .logRead⟩) ∧
    (getRequestedAction (⟨none⟩ : ActionSlot) = 0 ∧
     (postponeUpgradeFw [7] 1 ⟨none⟩).pending = some (.upgradeFw [7])) :=
  ⟨⟨rfl, by decide,
    ((C7_pending_action_slot ⟨some .logRead⟩ .logRead [7] [] 1 0).1 rfl).1 (by decide)⟩,
   ⟨rfl,
    ((C7_pending_action_slot ⟨none⟩ .logRead [7] [] 1 0).2 rfl).1⟩⟩

/-- C8: `saveFwChunk` is tri-state: on an unfinished transfer a non-last
block returns 0 and appends the block; the last-block call returns 1
(exactly once — it marks the transfer finished) and appends the final
block; after the final block every further call, of any arguments,
fails validation with a negative result and leaves the state unchanged. -/
theorem C8_saveFwChunk_tristate (s : FwTransfer) (data : List Nat) (len : Nat) :
    (s.finished = false →
      (saveFwChunk data len false s).1 = 0 ∧
      (saveFwChunk data len false s).2.finished = false ∧
      (saveFwChunk data len false s).2.blocks = s.blocks ++ [data.take len] ∧
      (saveFwChunk data len true s).1 = 1 ∧
      (saveFwChunk data len true s).2.finished = true ∧
      (saveFwChunk data len true s).2.blocks = s.blocks ++ [data.take len]) ∧
    (s.finished = true →
      ∀ b, (saveFwChunk data len b s).1 < 0 ∧ (saveFwChunk data len b s).2 = s) ∧
    (s.finished = false →
      ∀ d2 l2 b2, (saveFwChunk d2 l2 b2 (saveFwChunk data len true s).2).1 < 0) := by
  refine ⟨fun h => ?_, fun h b => ?_, fun h d2 l2 b2 => ?_⟩
  · simp [saveFwChunk, h]
  · simp [saveFwChunk, h, EINVAL]
  · simp [saveFwChunk, h, EINVAL]

/-- C8 witness: a fresh transfer saving its last block returns 1, and the
follow-up call fails validation. -/
theorem C8_saveFwChunk_tristate_witness :
    ((⟨false, []⟩ : FwTransfer).finished = false ∧
     (saveFwChunk [1, 2] 2 true (⟨false, []⟩ : FwTransfer)).1 = 1) ∧
    (saveFwChunk [3] 1 false (saveFwChunk [1, 2] 2 true (⟨false, []⟩ : FwTransfer)).2).1 < 0 :=
  ⟨⟨rfl, ((C8_saveFwChunk_tristate ⟨false, []⟩ [1, 2] 2).1 rfl).2.2.2.1⟩,
   (C8_saveFwChunk_tristate ⟨false, []⟩ [1, 2] 2).2.2 rfl [3] 1 false⟩

/-- C2: the Outbound Queue never exceeds its capacity; enqueuing into a
full queue drops exactly the oldest entry and raises exactly one
`EVENT_DROPPING_OLDEST` event; enqueuing into a non-full queue appends
without any event; dequeue takes the oldest entry (FIFO); and in the
concrete capacity-5 scenario, enqueuing M1..M6 yields the surviving
dequeue order M2,M3,M4,M5,M6 with exactly one drop event. -/
theorem C2_outbound_queue_bounded_fifo (q : OutQueue) (m : Nat) :
    (1 ≤ q.cap → q.items.length ≤ q.cap → (enqueueMsg m q).1.items.length ≤ q.cap) ∧
    (q.items.length = q.cap →
      (enqueueMsg m q).1.items = q.items.tail ++ [m] ∧
      (enqueueMsg m q).2 = [SomEvent.EVENT_DROPPING_OLDEST]) ∧
    (q.items.length < q.cap →
      (enqueueMsg m q).1.items = q.items ++ [m] ∧ (enqueueMsg m q).2 = []) ∧
    (dequeueMsg q).1 = q.items.head? ∧
    ((enqueueAll [1, 2, 3, 4, 5, 6] ⟨5, []⟩).1.items = [2, 3, 4, 5, 6] ∧
     (enqueueAll [1, 2, 3, 4, 5, 6] ⟨5, []⟩).2 = [SomEvent.EVENT_DROPPING_OLDEST] ∧
     dequeueAll (enqueueAll [1, 2, 3, 4, 5, 6] ⟨5, []⟩).1 = [2, 3, 4, 5, 6]) := by
  refine ⟨?_, ?_, ?_, ?_, by decide⟩
  · intro h1 h2
    rw [enqueueMsg]
    split_ifs with h
    · show (q.items.tail ++ [m]).length ≤ q.cap
      rw [List.length_append, List.length_tail]
      simp only [List.length_singleton]
      omega
    · show (q.items ++ [m]).length ≤ q.cap
      rw [List.length_append]
      simp only [List.length_singleton]
      omega
  · intro h
    rw [enqueueMsg, if_pos (le_of_eq h.symm)]
    exact ⟨rfl, rfl⟩
  · intro h
    rw [enqueueMsg, if_neg (by omega)]
    exact ⟨rfl, rfl⟩
  · cases hq : q.items <;> simp [dequeueMsg, hq]

/-- C2 witness: the overflow behavior instantiated on a concrete full
queue of capacity 5. -/
theorem C2_outbound_queue_bounded_fifo_witness :
    (⟨5, [10, 20, 30, 40, 50]⟩ : OutQueue).items.length = (⟨5, [10, 20, 30, 40, 50]⟩ : OutQueue).cap ∧
    (enqueueMsg 60 ⟨5, [10, 20, 30, 40, 50]⟩).1.items =
      (⟨5, [10, 20, 30, 40, 50]⟩ : OutQueue).items.tail ++ [60] ∧
    (enqueueMsg 60 ⟨5, [10, 20, 30, 40, 50]⟩).2 = [SomEvent.EVENT_DROPPING_OLDEST] :=
  ⟨by decide,
   ((C2_outbound_queue_bounded_fifo ⟨5, [10, 20, 30, 40, 50]⟩ 60).2.1 (by decide)).1,
   ((C2_outbound_queue_bounded_fifo ⟨5, [10, 20, 30, 40, 50]⟩ 60).2.1 (by decide)).2⟩

/-! ## Mailer retry lemmas -/

theorem mailerDeliverGo_attempts_le (maxA maxT : Nat) :
    ∀ (outcomes : List Bool) (attempt delay : Nat), attempt < maxA →
      (mailerDeliverGo maxA maxT attempt delay outcomes).attemptsUsed ≤ maxA := by
  intro outcomes
  induction outcomes with
  | nil =>
    intro a d h
    show a ≤ maxA
    omega
  | cons ok rest ih =>
    intro a d h
    simp only [mailerDeliverGo]
    split_ifs with h1 h2
    · show a + 1 ≤ maxA
      omega
    · show a + 1 ≤ maxA
      omega
    · show (mailerDeliverGo maxA maxT (a + 1) (min (d * 2) maxT) rest).attemptsUsed ≤ maxA
      exact ih (a + 1) _ (by omega)

theorem mailerDeliverGo_delays (maxA maxT : Nat) :
    ∀ (outcomes : List Bool) (attempt delay : Nat), delay ≤ maxT →
      (∀ x ∈ (mailerDeliverGo maxA maxT attempt delay outcomes).delays, delay ≤ x ∧ x ≤ maxT) ∧
      List.Chain' (fun a b => a ≤ b) (mailerDeliverGo maxA maxT attempt delay outcomes).delays := by
  intro outcomes
  induction outcomes with
  | nil =>
    intro a d hd
    constructor
    · intro x hx
      exact absurd hx (List.not_mem_nil x)
    · exact List.chain'_nil
  | cons ok rest ih =>
    intro a d hd
    simp only [mailerDeliverGo]
    split_ifs with h1 h2
    · constructor
      · intro x hx
        exact absurd hx (List.not_mem_nil x)
      · exact List.chain'_nil
    · constructor
      · intro x hx
        exact absurd hx (List.not_mem_nil x)
      · exact List.chain'_nil
    · have hd1 : min (d * 2) maxT ≤ maxT := Nat.min_le_right _ _
      have hdd1 : d ≤ min (d * 2) maxT := le_min (by omega) hd
      obtain ⟨ihmem, ihchain⟩ := ih (a + 1) (min (d * 2) maxT) hd1
      constructor
      · intro x hx
        have hx2 : x ∈ d :: (mailerDeliverGo maxA maxT (a + 1) (min (d * 2) maxT) rest).delays := hx
        rcases List.mem_cons.1 hx2 with hh | hh
        · subst hh
          exact ⟨le_refl _, hd⟩
        · have := ihmem x hh
          exact ⟨le_trans hdd1 this.1, this.2⟩
      · show List.Chain' _ (d :: (mailerDeliverGo maxA maxT (a + 1) (min (d * 2) maxT) rest).delays)
        rw [List.chain'_cons']
        refine ⟨?_, ihchain⟩
        intro y hy
        exact le_trans hdd1 (ihmem y (List.mem_of_mem_head? hy)).1

theorem mailerDeliverGo_never_requeued (maxA maxT : Nat) :
    ∀ (outcomes : List Bool) (attempt delay : Nat),
      (mailerDeliverGo maxA maxT attempt delay outcomes).requeued = false := by
  intro outcomes
  induction outcomes with
  | nil =>
    intro a d
    rfl
  | cons ok rest ih =>
    intro a d
    simp only [mailerDeliverGo]
    split_ifs with h1 h2
    · rfl
    · rfl
    · show (mailerDeliverGo maxA maxT (a + 1) (min (d * 2) maxT) rest).requeued = false
      exact ih (a + 1) _

theorem mailerDeliverGo_giveup (maxA maxT : Nat) :
    ∀ (k a d : Nat) (rest : List Bool), a + k = maxA → 1 ≤ k →
      (mailerDeliverGo maxA maxT a d (List.replicate k false ++ rest)).dropped = true ∧
      SomEvent.EVENT_UL_MAX_RETRY ∈
        (mailerDeliverGo maxA maxT a d (List.replicate k false ++ rest)).events ∧
      (mailerDeliverGo maxA maxT a d (List.replicate k false ++ rest)).attemptsUsed = maxA := by
  intro k
  induction k with
  | zero =>
    intro a d rest hsum hk
    omega
  | succ k ih =>
    intro a d rest hsum hk
    rw [List.replicate_succ, List.cons_append]
    simp only [mailerDeliverGo]
    rw [if_neg (by simp)]
    by_cases hzero : k = 0
    · subst hzero
      rw [if_pos (by omega)]
      refine ⟨rfl, ?_, ?_⟩
      · show SomEvent.EVENT_UL_MAX_RETRY ∈ [SomEvent.EVENT_COAP_NOACK, SomEvent.EVENT_UL_MAX_RETRY]
        simp
      · show a + 1 = maxA
        omega
    · rw [if_neg (by omega)]
      obtain ⟨ih1, ih2, ih3⟩ := ih (a + 1) (min (d * 2) maxT) rest (by omega) (by omega)
      refine ⟨ih1, ?_, ih3⟩
      show SomEvent.EVENT_UL_MAX_RETRY ∈ SomEvent.EVENT_COAP_NOACK :: SomEvent.EVENT_UL_RETRY ::
        (mailerDeliverGo maxA maxT (a + 1) (min (d * 2) maxT) (List.replicate k false ++ rest)).events
      exact List.mem_cons_of_mem _ (List.mem_cons_of_mem _ ih2)

/-- C1: for every dequeued message, under settings with at least one
allowed attempt and an initial backoff no larger than the backoff cap, the
number of delivery attempts never exceeds `MaxResendAttempts`; the backoff
delays between consecutive attempts are non-decreasing and each bounded by
`MaxResendTimeout` (in minutes); the message is never requeued; and when
the attempts reach `MaxResendAttempts` (a run of `MaxResendAttempts`
failed attempts) the Mailer emits `EVENT_UL_MAX_RETRY`, drops the message
and does not requeue it. -/
theorem C1_mailer_retry_policy (st : Settings) (outcomes : List Bool)
    (hA : 1 ≤ getMaxResendAttempts st)
    (hI : getResendPacketInitialTimeout st ≤ getMaxResendTimeout st * 60) :
    (mailerDeliver st outcomes).attemptsUsed ≤ getMaxResendAttempts st ∧
    List.Chain' (fun a b => a ≤ b) (mailerDeliver st outcomes).delays ∧
    (∀ x ∈ (mailerDeliver st outcomes).delays, x ≤ getMaxResendTimeout st * 60) ∧
    (mailerDeliver st outcomes).requeued = false ∧
    (∀ rest : List Bool,
      (mailerDeliver st (List.replicate (getMaxResendAttempts st) false ++ rest)).dropped = true ∧
      SomEvent.EVENT_UL_MAX_RETRY ∈
        (mailerDeliver st (List.replicate (getMaxResendAttempts st) false ++ rest)).events ∧
      (mailerDeliver st (List.replicate (getMaxResendAttempts st) false ++ rest)).attemptsUsed =
        getMaxResendAttempts st ∧
      (mailerDeliver st (List.replicate (getMaxResendAttempts st) false ++ rest)).requeued =
        false) := by
  refine ⟨?_, ?_, ?_, ?_, ?_⟩
  · exact mailerDeliverGo_attempts_le _ _ outcomes 0 _ (by omega)
  · exact (mailerDeliverGo_delays _ _ outcomes 0 _ hI).2
  · intro x hx
    exact ((mailerDeliverGo_delays _ _ outcomes 0 _ hI).1 x hx).2
  · exact mailerDeliverGo_never_requeued _ _ outcomes 0 _
  · intro rest
    obtain ⟨h1, h2, h3⟩ := mailerDeliverGo_giveup (getMaxResendAttempts st)
      (getMaxResendTimeout st * 60) (getMaxResendAttempts st) 0
      (getResendPacketInitialTimeout st) rest (by omega) hA
    exact ⟨h1, h2, h3, mailerDeliverGo_never_requeued _ _ _ 0 _⟩

/-- C1 witness: the retry policy instantiated at MaxResendAttempts = 3,
initial backoff 10 minutes, cap 1 hour, with three consecutive no-acks. -/
theorem C1_mailer_retry_policy_witness :
    1 ≤ getMaxResendAttempts settingsEx ∧
    getResendPacketInitialTimeout settingsEx ≤ getMaxResendTimeout settingsEx * 60 ∧
    (mailerDeliver settingsEx [false, false, false]).attemptsUsed ≤
      getMaxResendAttempts settingsEx :=
  ⟨by decide, by decide,
   (C1_mailer_retry_policy settingsEx [false, false, false] (by decide) (by decide)).1⟩
